import Mathlib

/-!
Shallow embedding of the IEC 62056-21 client engine: the message codec
(DataSet, DataLine, DataBlock, Identity, Command), the framed read/write
primitives, the BCC checksum, the NAK retry wrapper and the password
exchange.  Go byte strings are modelled as List Nat; Go errors become
explicit result inductives; Go run-time panics (slice bounds out of
range) are modelled by a dedicated fault constructor.
-/

namespace Iec62056

/-- Byte constants of the protocol, named as in the source. -/
def start : Nat := 0x2f

def ack : Nat := 0x06

def soh : Nat := 0x01

def stx : Nat := 0x02

def etx : Nat := 0x03

def trc : Nat := 0x3f

def nak : Nat := 0x15

def cr : Nat := 0x0d

def lf : Nat := 0x0a

def fb : Nat := 0x28

def rb : Nat := 0x29

def star : Nat := 0x2a

/-- Protocol modes; in the source these are the bytes 0x41..0x44
(ModeA = byte 0x41 plus iota). -/
inductive ProtocolMode where
  | A
  | B
  | C
  | D
deriving DecidableEq

/-- Command identifiers, as in the source CommandId enumeration. -/
inductive CommandId where
  | CmdP0
  | CmdP1
  | CmdP2
  | CmdW1
  | CmdW2
  | CmdR1
  | CmdR2
  | CmdE2
  | CmdB0
deriving DecidableEq

/-- The two-byte command codes of the commands map.  The Go map contains
all nine identifiers, so lookup never fails on a CommandId value. -/
def commands : CommandId → List Nat
  | .CmdP0 => [0x50, 0x30]
  | .CmdP1 => [0x50, 0x31]
  | .CmdP2 => [0x50, 0x32]
  | .CmdW1 => [0x57, 0x31]
  | .CmdW2 => [0x57, 0x32]
  | .CmdR1 => [0x52, 0x31]
  | .CmdR2 => [0x52, 0x32]
  | .CmdE2 => [0x45, 0x32]
  | .CmdB0 => [0x42, 0x30]

/-- A single address=value[*unit] tuple; fields are Go strings, i.e. byte
sequences. -/
structure DataSet where
  Address : List Nat
  Value : List Nat
  Unit : List Nat
deriving DecidableEq

structure DataLine where
  Sets : List DataSet
deriving DecidableEq

structure DataBlock where
  Lines : List DataLine
deriving DecidableEq

/-- Codec error messages returned via errors.New in the source. -/
inductive CodecError where
  | frontBoundaryMissing
  | rearBoundaryMissing
deriving DecidableEq

/-- Result of a Go unmarshal call: a value, an error, or a run-time fault
(slice bounds out of range). -/
inductive GoResult (A : Type) where
  | ok (a : A)
  | err (e : CodecError)
  | fault
deriving DecidableEq

/-- bytes.IndexByte: index of the first occurrence of b, none if absent. -/
def indexByte (b : Nat) : List Nat → Option Nat
  | [] => none
  | x :: r => if x = b then some 0 else (indexByte b r).map (· + 1)

/-- DataSet.MarshalBinary: the all-empty data set encodes to the empty
sequence; otherwise address, the 0x28 boundary, value, optionally 0x2a and
the unit, and the 0x29 boundary. -/
def dataSetMarshal (ds : DataSet) : List Nat :=
  if ds.Address.length + ds.Value.length + ds.Unit.length = 0 then []
  else
    ds.Address ++
      fb :: (ds.Value ++ (if ds.Unit.length = 0 then [] else star :: ds.Unit) ++ [rb])

/-- DataSet.UnmarshalBinary.  The source takes the Go slice
data[fbIdx+1 : rbIdx]; when the first 0x29 precedes the first 0x28 that
slice has low greater than high and the Go program faults, modelled by
the fault constructor. -/
def dataSetUnmarshal (data : List Nat) : GoResult DataSet :=
  match indexByte fb data with
  | none => .err .frontBoundaryMissing
  | some fbIdx =>
    match indexByte rb data with
    | none => .err .rearBoundaryMissing
    | some rbIdx =>
      if rbIdx < fbIdx + 1 then .fault
      else
        let addr := data.take fbIdx
        let mid := (data.take rbIdx).drop (fbIdx + 1)
        match indexByte star mid with
        | none => .ok { Address := addr, Value := mid, Unit := [] }
        | some spIdx =>
          .ok { Address := addr, Value := mid.take spIdx, Unit := mid.drop (spIdx + 1) }

/-- dropCR of bufio.ScanLines: strip one trailing 0x0d. -/
def dropCR (l : List Nat) : List Nat :=
  if l.getLast? = some cr then l.dropLast else l

/-- Line splitting of bufio.ScanLines: tokens end at each 0x0a (which is
consumed and a trailing 0x0d stripped); a final unterminated token is
returned as well; empty input yields no token. -/
def splitLines (data : List Nat) : List (List Nat) :=
  if data = [] then []
  else
    let parts := data.splitOn lf
    let parts := if data.getLast? = some lf then parts.dropLast else parts
    parts.map dropCR

/-- Tokens produced by the custom split function of
DataLine.UnmarshalBinary: chunks up to and including each 0x29.  When a
trailing chunk without 0x29 remains at end of input the split function
returns an error, which makes bufio.Scanner.Scan return false without
delivering a token; the loop in the source then exits and returns nil, so
the leftover is silently discarded. -/
def lineTokens (data : List Nat) : List (List Nat) :=
  ((data.splitOn rb).dropLast).map (fun t => t ++ [rb])

/-- Decode each token of a line in order, stopping at the first error, as
the scan loop of DataLine.UnmarshalBinary does. -/
def decodeSets : List (List Nat) → GoResult (List DataSet)
  | [] => .ok []
  | t :: ts =>
    match dataSetUnmarshal t with
    | .ok ds =>
      match decodeSets ts with
      | .ok rest => .ok (ds :: rest)
      | .err e => .err e
      | .fault => .fault
    | .err e => .err e
    | .fault => .fault

/-- DataLine.UnmarshalBinary. -/
def dataLineUnmarshal (data : List Nat) : GoResult DataLine :=
  match decodeSets (lineTokens data) with
  | .ok sets => .ok { Sets := sets }
  | .err e => .err e
  | .fault => .fault

/-- Decode each line of a block in order, stopping at the first error, as
the scan loop of DataBlock.UnmarshalBinary does. -/
def decodeLines : List (List Nat) → GoResult (List DataLine)
  | [] => .ok []
  | t :: ts =>
    match dataLineUnmarshal t with
    | .ok dl =>
      match decodeLines ts with
      | .ok rest => .ok (dl :: rest)
      | .err e => .err e
      | .fault => .fault
    | .err e => .err e
    | .fault => .fault

/-- DataBlock.UnmarshalBinary: split into lines with the default
bufio.ScanLines split and decode each line. -/
def dataBlockUnmarshal (data : List Nat) : GoResult DataBlock :=
  match decodeLines (splitLines data) with
  | .ok lines => .ok { Lines := lines }
  | .err e => .err e
  | .fault => .fault

/-- Command.MarshalBinary for a CommandId value (the commands map is total
on the nine identifiers, so the invalid-command branch is unreachable
here); the 0x02 and payload are omitted when the payload marshals to the
empty sequence. -/
def commandMarshal (id : CommandId) (payload : Option DataSet) : List Nat :=
  let pl := match payload with
    | none => []
    | some ds => dataSetMarshal ds
  soh :: commands id ++ (if pl = [] then [] else stx :: pl) ++ [etx]

/-- Parsed identification response, fields as in the source. -/
structure Identity where
  Device : List Nat
  Manufacturer : List Nat
  Mode : ProtocolMode
  bri : Nat
deriving DecidableEq

/-- decodeMode: byte ranges 0x30..0x39 give ModeC, 0x41..0x49 give ModeB,
anything else ModeA. -/
def decodeMode (b : Nat) : ProtocolMode :=
  if 0x30 ≤ b ∧ b ≤ 0x39 then .C
  else if 0x41 ≤ b ∧ b ≤ 0x49 then .B
  else .A

/-- Result of Identity.UnmarshalBinary: a value, the too-short error, or a
run-time fault. -/
inductive IdParse where
  | ok (id : Identity)
  | tooShort
  | fault
deriving DecidableEq

/-- Identity.UnmarshalBinary.  The guard rejects inputs shorter than 4
bytes; for longer inputs the source takes the Go slice
data[4 : len(data)-2], which for lengths 4 and 5 has low greater than
high and the Go program faults, modelled by the fault constructor. -/
def identityUnmarshal (data : List Nat) : IdParse :=
  if data.length < 4 then .tooShort
  else if data.length < 6 then .fault
  else
    .ok { Device := (data.take (data.length - 2)).drop 4
        , Manufacturer := data.take 3
        , Mode := decodeMode (data.getD 3 0)
        , bri := data.getD 3 0 }

/-- The identity constructed by TariffDevice.ImmediateDreadOut: the parsed
identification response with its Mode field overwritten to ModeD before
the identity is cached on the session. -/
def immediateDreadOutIdentity (data : List Nat) : IdParse :=
  match identityUnmarshal data with
  | .ok id => .ok { id with Mode := .D }
  | r => r

/-- bcc: longitudinal checksum; the Go accumulator is a byte, so the sum
wraps modulo 256 before the final mask with 0x7f. -/
def bcc (data : List Nat) : Nat :=
  (data.foldl (fun c b => (c + b) % 256) 0) &&& 0x7f

/-- Errors surfaced by the framed read and write primitives.  ioErr covers
transport failures, in particular a read hitting end of input before its
delimiter. -/
inductive PErr where
  | errNAK
  | errBCC
  | errInvalidFrame
  | errNoConnection
  | ioErr
deriving DecidableEq

/-- ReadBytes(delim): the token up to and including the delimiter plus the
remaining input; none when the input ends before the delimiter (the
source then propagates the read error). -/
def readBytesIncl (delim : Nat) : List Nat → Option (List Nat × List Nat)
  | [] => none
  | b :: r =>
    if b = delim then some ([b], r)
    else
      match readBytesIncl delim r with
      | none => none
      | some (t, rest) => some (b :: t, rest)

/-- readMessage over a connection modelled as its pending input bytes
(none models a nil connection).  Returns the delivered payload, if any,
together with the error, if any; on a BCC mismatch both are present, as
in the source. -/
def readMessage (conn : Option (List Nat)) : Option (List Nat) × Option PErr :=
  match conn with
  | none => (none, some .errNoConnection)
  | some [] => (none, some .ioErr)
  | some (head :: rest) =>
    if head = nak then (some [head], some .errNAK)
    else if head = ack then (some [head], none)
    else if head = stx ∨ head = soh then
      match readBytesIncl etx rest with
      | none => (none, some .ioErr)
      | some (data, rest2) =>
        match rest2 with
        | [] => (none, some .ioErr)
        | check :: _ =>
          if check = bcc data then (some data, none) else (some data, some .errBCC)
    else if head = start then
      match readBytesIncl lf rest with
      | none => (none, some .ioErr)
      | some (data, _) => (some data, none)
    else (none, some .errInvalidFrame)

/-- Observable effects of one writeMessage call: the byte sequences passed
to Write, the bytes passed to WriteByte, and whether Flush and LogRequest
ran. -/
structure WriteTrace where
  writes : List (List Nat)
  writeBytes : List Nat
  flushed : Bool
  logged : Bool
deriving DecidableEq

inductive WriteResult where
  | ok (t : WriteTrace)
  | err (e : PErr)
deriving DecidableEq

/-- writeMessage: empty input returns nil at once, before the
nil-connection check; otherwise the frame is written, the suffix chosen by
the first byte (BCC of the tail after 0x01; 0x0d 0x0a after 0x2f or
0x06), then Flush and LogRequest. -/
def writeMessage (connected : Bool) (data : List Nat) : WriteResult :=
  match data with
  | [] => .ok { writes := [], writeBytes := [], flushed := false, logged := false }
  | d0 :: drest =>
    if connected = false then .err .errNoConnection
    else if d0 = soh then
      .ok { writes := [d0 :: drest], writeBytes := [bcc drest], flushed := true, logged := true }
    else if d0 = start ∨ d0 = ack then
      .ok { writes := [d0 :: drest, [cr, lf]], writeBytes := [], flushed := true, logged := true }
    else
      .ok { writes := [d0 :: drest], writeBytes := [], flushed := true, logged := true }

/-- Outcome of one read in the retry loop. -/
inductive CmdOut where
  | ok (d : List Nat)
  | err (e : PErr)
deriving DecidableEq

/-- Behaviour of the peer at one attempt of the retry loop: the write
fails, or the write succeeds and the read yields the given outcome. -/
inductive Attempt where
  | wFail (e : PErr)
  | resp (r : CmdOut)
deriving DecidableEq

/-- Observable summary of one TariffDevice.cmd call: how many writes and
reads were performed, the returned value or error, and whether
lastActivity was updated. -/
structure CmdTrace where
  writes : Nat
  reads : Nat
  result : CmdOut
  updated : Bool
deriving DecidableEq

/-- The body of the retry loop of TariffDevice.cmd, indexed by the
attempt number and the remaining iteration count; when the count runs out
the source returns ErrNAK. -/
def cmdAux (peer : Nat → Attempt) (i : Nat) : Nat → CmdTrace
  | 0 => { writes := 0, reads := 0, result := .err .errNAK, updated := false }
  | n + 1 =>
    match peer i with
    | .wFail e => { writes := 1, reads := 0, result := .err e, updated := false }
    | .resp (.ok d) => { writes := 1, reads := 1, result := .ok d, updated := true }
    | .resp (.err .errNAK) =>
      let t := cmdAux peer (i + 1) n
      { writes := t.writes + 1, reads := t.reads + 1, result := t.result, updated := t.updated }
    | .resp (.err e) => { writes := 1, reads := 1, result := .err e, updated := false }

/-- TariffDevice.cmd: at most 5 attempts. -/
def cmdRun (peer : Nat → Attempt) : CmdTrace := cmdAux peer 0 5

/-- Outcome of TariffDevice.passExchange. -/
inductive PassOutcome where
  | accepted
  | errCodec (e : CodecError)
  | errBreak
  | errValue (v : List Nat)
  | errInvalidPassword
  | errCmd (e : PErr)
  | fault
deriving DecidableEq

/-- Tail of passExchange on a response that is neither acknowledged nor a
break: decode it as a data set; a decode error is returned as is; a
non-empty value is returned as the error text; otherwise the password was
invalid. -/
def passTail (data : List Nat) : PassOutcome :=
  match dataSetUnmarshal data with
  | .ok r => if r.Value ≠ [] then .errValue r.Value else .errInvalidPassword
  | .err e => .errCodec e
  | .fault => .fault

/-- TariffDevice.passExchange with a configured password callback, over
the payload bytes, the callback, and the outcome of the retry wrapper for
the password command.  Indexing data[0] and data[1] on a too-short
response is a Go run-time fault.  The accepted outcome is the one path
that sets programmingMode. -/
def passExchange (p : List Nat) (passFn : DataSet → DataSet × CommandId)
    (resp : CmdOut) : PassOutcome :=
  match dataSetUnmarshal p with
  | .err e => .errCodec e
  | .fault => .fault
  | .ok ds0 =>
    let ds : DataSet := { ds0 with Address := [] }
    let pc := passFn ds
    let _sent := commandMarshal pc.2 (some pc.1)
    match resp with
    | .err .errNAK => .errInvalidPassword
    | .err e => .errCmd e
    | .ok data =>
      match data with
      | [] => .fault
      | d0 :: drest =>
        if d0 = ack then .accepted
        else if d0 = 0x42 then
          match drest with
          | [] => .fault
          | d1 :: _ => if d1 = 0x30 then .errBreak else passTail (d0 :: drest)
        else passTail (d0 :: drest)

/-! Helper lemmas about indexByte, readBytesIncl and bcc. -/

theorem indexByte_eq_none {b : Nat} {xs : List Nat} (h : b ∉ xs) : indexByte b xs = none := by
  induction xs with
  | nil => rfl
  | cons x l ih =>
    rw [List.mem_cons, not_or] at h
    simp [indexByte, Ne.symm h.1, ih h.2]

theorem indexByte_append {b : Nat} {xs : List Nat} (ys : List Nat) (h : b ∉ xs) :
    indexByte b (xs ++ b :: ys) = some xs.length := by
  induction xs with
  | nil => simp [indexByte]
  | cons x l ih =>
    rw [List.mem_cons, not_or] at h
    simp [indexByte, Ne.symm h.1, ih h.2]

theorem readBytesIncl_append {delim : Nat} {pre : List Nat} (tail : List Nat)
    (h : delim ∉ pre) :
    readBytesIncl delim (pre ++ delim :: tail) = some (pre ++ [delim], tail) := by
  induction pre with
  | nil => simp [readBytesIncl]
  | cons x l ih =>
    rw [List.mem_cons, not_or] at h
    simp [readBytesIncl, Ne.symm h.1, ih h.2]

theorem bcc_foldl (l : List Nat) :
    ∀ a, a < 256 → l.foldl (fun c b => (c + b) % 256) a = (a + l.sum) % 256 := by
  induction l with
  | nil => intro a ha; simp [Nat.mod_eq_of_lt ha]
  | cons x r ih =>
    intro a ha
    have h1 : (a + x) % 256 < 256 := Nat.mod_lt _ (by norm_num)
    simp only [List.foldl_cons, List.sum_cons, ih _ h1]
    rw [Nat.mod_add_mod, Nat.add_assoc]

theorem bcc_eq_mod (l : List Nat) : bcc l = l.sum % 128 := by
  have hmask : ∀ n : Nat, n &&& 127 = n % 128 := by
    intro n
    have := Nat.and_pow_two_sub_one_eq_mod n 7
    simpa using this
  have : bcc l = (0 + l.sum) % 256 &&& 127 := by
    rw [bcc, bcc_foldl l 0 (by norm_num)]
  rw [this, hmask, Nat.zero_add, Nat.mod_mod_of_dvd _ (by norm_num)]

/-! Theorems for the claims. -/

/-- Claim C8: the BCC checksum is a homomorphism for concatenation, namely
bcc of xs concatenated with ys equals the 0x7f-masked sum of bcc xs and
bcc ys. -/
theorem bcc_append_hom (xs ys : List Nat) :
    bcc (xs ++ ys) = (bcc xs + bcc ys) &&& 0x7f := by
  have hmask : ∀ n : Nat, n &&& 127 = n % 128 := by
    intro n
    have := Nat.and_pow_two_sub_one_eq_mod n 7
    simpa using this
  rw [bcc_eq_mod, bcc_eq_mod, bcc_eq_mod, List.sum_append]
  rw [show ((127 : Nat) = 0x7f) from rfl] at hmask
  rw [hmask, Nat.add_mod]

/-- Claim C9: decoding the empty byte sequence as a DataBlock succeeds and
yields a block with zero lines, whereas decoding the empty sequence as a
DataSet fails; a zero-byte line decodes to a DataLine with zero sets and
no error. -/
theorem dataBlock_empty_ok :
    dataBlockUnmarshal [] = .ok { Lines := [] } ∧
    dataSetUnmarshal [] = .err .frontBoundaryMissing ∧
    dataLineUnmarshal [] = .ok { Sets := [] } := by
  refine ⟨rfl, rfl, rfl⟩

/-- Claim C10: writeMessage on the empty byte sequence returns success at
once, with no write, no suffix byte, no flush and no logging, even on a
nil connection, because the empty-input check precedes the nil-connection
check; on a nonempty input the nil connection is reported. -/
theorem writeMessage_empty_noop :
    (∀ connected : Bool,
      writeMessage connected [] =
        .ok { writes := [], writeBytes := [], flushed := false, logged := false }) ∧
    writeMessage false [soh, 0x50, 0x31, etx] = .err .errNoConnection := by
  exact ⟨fun _ => rfl, rfl⟩

/-- Claim C2 (code behaviour at the failing input): a 4-byte identification
message passes the too-short guard and then faults on the Go slice
data[4:2]; a shorter message gets the too-short error; a 6-byte message
parses with manufacturer bytes 0..2, bri byte 3 and empty device. -/
theorem identityUnmarshal_len4_fault :
    identityUnmarshal [65, 66, 67, 48] = .fault ∧
    identityUnmarshal [65, 66, 67] = .tooShort ∧
    identityUnmarshal [65, 66, 67, 48, 13, 10] =
      .ok { Device := [], Manufacturer := [65, 66, 67], Mode := .C, bri := 48 } := by
  refine ⟨by decide, by decide, by decide⟩

theorem marshal_indices (A V su : List Nat) (ha1 : fb ∉ A) (ha2 : rb ∉ A)
    (hv : rb ∉ V) (hs : rb ∉ su) :
    indexByte fb (A ++ fb :: (V ++ su ++ [rb])) = some A.length ∧
    indexByte rb (A ++ fb :: (V ++ su ++ [rb])) = some (A.length + (V ++ su).length + 1) := by
  constructor
  · exact indexByte_append _ ha1
  · have henc : A ++ fb :: (V ++ su ++ [rb]) = (A ++ fb :: (V ++ su)) ++ rb :: [] := by simp
    have hmem : rb ∉ A ++ fb :: (V ++ su) := by
      simp only [List.mem_append, List.mem_cons, not_or]
      refine ⟨ha2, by decide, ?_⟩
      simp [hv, hs]
    rw [henc, indexByte_append [] hmem]
    simp only [Option.some.injEq, List.length_append, List.length_cons]
    omega

theorem dataSetUnmarshal_enc (A V su : List Nat) (ha1 : fb ∉ A) (ha2 : rb ∉ A)
    (hv : rb ∉ V) (hs : rb ∉ su) :
    dataSetUnmarshal (A ++ fb :: (V ++ su ++ [rb])) =
      match indexByte star (V ++ su) with
      | none => .ok { Address := A, Value := V ++ su, Unit := [] }
      | some spIdx =>
        .ok { Address := A, Value := (V ++ su).take spIdx
            , Unit := (V ++ su).drop (spIdx + 1) } := by
  obtain ⟨hfb, hrb⟩ := marshal_indices A V su ha1 ha2 hv hs
  have hnotlt : ¬(A.length + (V ++ su).length + 1 < A.length + 1) := by omega
  have haddr : (A ++ fb :: (V ++ su ++ [rb])).take A.length = A := List.take_left A _
  have hmid :
      ((A ++ fb :: (V ++ su ++ [rb])).take (A.length + (V ++ su).length + 1)).drop
        (A.length + 1) = V ++ su := by
    have henc : A ++ fb :: (V ++ su ++ [rb]) = (A ++ fb :: (V ++ su)) ++ rb :: [] := by simp
    have hlen : A.length + (V ++ su).length + 1 = (A ++ fb :: (V ++ su)).length := by
      simp only [List.length_append, List.length_cons]; omega
    rw [henc, hlen, List.take_left]
    have hsplit : A ++ fb :: (V ++ su) = (A ++ [fb]) ++ (V ++ su) := by simp
    rw [hsplit, show A.length + 1 = (A ++ [fb]).length by simp]
    exact List.drop_left _ _
  simp only [dataSetUnmarshal, hfb, hrb, hnotlt, if_false, haddr, hmid]

/-- Claim C1 (amended): for a DataSet whose fields are not all empty, and
whose address contains neither 0x28 nor 0x29, whose value contains neither
0x29 nor 0x2a, and whose unit contains no 0x29, decoding the encoding
returns the same DataSet; the all-empty DataSet encodes to the empty
sequence and DataSet decoding of the empty sequence fails. -/
theorem dataSet_roundTrip (ds : DataSet)
    (hne : ¬(ds.Address = [] ∧ ds.Value = [] ∧ ds.Unit = []))
    (ha1 : fb ∉ ds.Address) (ha2 : rb ∉ ds.Address)
    (hv1 : rb ∉ ds.Value) (hv2 : star ∉ ds.Value)
    (hu : rb ∉ ds.Unit) :
    dataSetUnmarshal (dataSetMarshal ds) = .ok ds ∧
    dataSetMarshal { Address := [], Value := [], Unit := [] } = [] ∧
    dataSetUnmarshal [] = .err .frontBoundaryMissing := by
  refine ⟨?_, rfl, rfl⟩
  obtain ⟨A, V, U⟩ := ds
  simp only at hne ha1 ha2 hv1 hv2 hu
  have hlen : ¬(A.length + V.length + U.length = 0) := by
    intro h
    exact hne ⟨List.length_eq_zero.mp (by omega), List.length_eq_zero.mp (by omega),
      List.length_eq_zero.mp (by omega)⟩
  by_cases hU : U = []
  · subst hU
    have hm : dataSetMarshal { Address := A, Value := V, Unit := [] } =
        A ++ fb :: (V ++ [] ++ [rb]) := by
      simp only [dataSetMarshal]
      rw [if_neg hlen]
      simp
    rw [hm, dataSetUnmarshal_enc A V [] ha1 ha2 hv1 (by simp)]
    simp [indexByte_eq_none hv2]
  · have hUlen : ¬(U.length = 0) := fun h => hU (List.length_eq_zero.mp h)
    have hm : dataSetMarshal { Address := A, Value := V, Unit := U } =
        A ++ fb :: (V ++ (star :: U) ++ [rb]) := by
      simp only [dataSetMarshal]
      rw [if_neg hlen, if_neg hUlen]
    have hsU : rb ∉ star :: U := by
      simp only [List.mem_cons, not_or]
      exact ⟨by decide, hu⟩
    rw [hm, dataSetUnmarshal_enc A V (star :: U) ha1 ha2 hv1 hsU]
    rw [indexByte_append U hv2]
    have htake : (V ++ star :: U).take V.length = V := List.take_left V _
    have hdrop : (V ++ star :: U).drop (V.length + 1) = U := by
      have hsplit : V ++ star :: U = (V ++ [star]) ++ U := by simp
      rw [hsplit, show V.length + 1 = (V ++ [star]).length by simp]
      exact List.drop_left _ _
    simp [htake, hdrop]

theorem dataSet_roundTrip_wit :
    dataSetUnmarshal (dataSetMarshal { Address := [65], Value := [49], Unit := [87] }) =
      .ok { Address := [65], Value := [49], Unit := [87] } :=
  (dataSet_roundTrip { Address := [65], Value := [49], Unit := [87] }
    (by decide) (by decide) (by decide) (by decide) (by decide) (by decide)).1

/-- Claim C7 (amended): for a DataSet that is not all empty, whose fields
contain neither 0x28 nor 0x29, and whose address and value contain no
0x2a, the encoding contains exactly one 0x28 and exactly one 0x29, the
0x28 before the 0x29, and contains 0x2a iff the unit is non-empty. -/
theorem dataSet_boundaries (ds : DataSet)
    (hne : ¬(ds.Address = [] ∧ ds.Value = [] ∧ ds.Unit = []))
    (ha1 : fb ∉ ds.Address) (ha2 : rb ∉ ds.Address) (ha3 : star ∉ ds.Address)
    (hv1 : fb ∉ ds.Value) (hv2 : rb ∉ ds.Value) (hv3 : star ∉ ds.Value)
    (hu1 : fb ∉ ds.Unit) (hu2 : rb ∉ ds.Unit) :
    (dataSetMarshal ds).count fb = 1 ∧
    (dataSetMarshal ds).count rb = 1 ∧
    (∃ i j, indexByte fb (dataSetMarshal ds) = some i ∧
      indexByte rb (dataSetMarshal ds) = some j ∧ i < j) ∧
    (star ∈ dataSetMarshal ds ↔ ds.Unit ≠ []) := by
  obtain ⟨A, V, U⟩ := ds
  simp only at hne ha1 ha2 ha3 hv1 hv2 hv3 hu1 hu2 ⊢
  have hlen : ¬(A.length + V.length + U.length = 0) := by
    intro h
    exact hne ⟨List.length_eq_zero.mp (by omega), List.length_eq_zero.mp (by omega),
      List.length_eq_zero.mp (by omega)⟩
  have hx1 : rb ≠ fb := by decide
  have hx2 : fb ≠ rb := by decide
  have hx3 : star ≠ fb := by decide
  have hx4 : star ≠ rb := by decide
  by_cases hU : U = []
  · subst hU
    have hm : dataSetMarshal { Address := A, Value := V, Unit := [] } =
        A ++ fb :: (V ++ [] ++ [rb]) := by
      simp only [dataSetMarshal]
      rw [if_neg hlen]
      simp
    obtain ⟨hfb, hrb⟩ := marshal_indices A V [] ha1 ha2 hv2 (by simp)
    refine ⟨?_, ?_, ⟨A.length, A.length + (V ++ []).length + 1, by rw [hm]; exact hfb,
      by rw [hm]; exact hrb, by omega⟩, ?_⟩
    · rw [hm]
      simp [List.count_append, List.count_cons, List.count_eq_zero.mpr ha1,
        List.count_eq_zero.mpr hv1, hx1, hx2, hx3, hx4]
    · rw [hm]
      simp [List.count_append, List.count_cons, List.count_eq_zero.mpr ha2,
        List.count_eq_zero.mpr hv2, hx1, hx2, hx3, hx4]
    · rw [hm]
      simp [List.mem_append, ha3, hv3, hx1, hx2, hx3, hx4]
  · have hUlen : ¬(U.length = 0) := fun h => hU (List.length_eq_zero.mp h)
    have hm : dataSetMarshal { Address := A, Value := V, Unit := U } =
        A ++ fb :: (V ++ (star :: U) ++ [rb]) := by
      simp only [dataSetMarshal]
      rw [if_neg hlen, if_neg hUlen]
    have hsU : rb ∉ star :: U := by
      simp only [List.mem_cons, not_or]
      exact ⟨by decide, hu2⟩
    obtain ⟨hfb, hrb⟩ := marshal_indices A V (star :: U) ha1 ha2 hv2 hsU
    refine ⟨?_, ?_, ⟨A.length, A.length + (V ++ star :: U).length + 1, by rw [hm]; exact hfb,
      by rw [hm]; exact hrb, by omega⟩, ?_⟩
    · rw [hm]
      simp [List.count_append, List.count_cons, List.count_eq_zero.mpr ha1,
        List.count_eq_zero.mpr hv1, List.count_eq_zero.mpr hu1, hx1, hx2, hx3, hx4]
    · rw [hm]
      simp [List.count_append, List.count_cons, List.count_eq_zero.mpr ha2,
        List.count_eq_zero.mpr hv2, List.count_eq_zero.mpr hu2, hx1, hx2, hx3, hx4]
    · rw [hm]
      simp [List.mem_append, hU, hx1, hx2, hx3, hx4]

theorem dataSet_boundaries_wit :
    (dataSetMarshal { Address := [65], Value := [49], Unit := [87] }).count fb = 1 ∧
    (dataSetMarshal { Address := [65], Value := [49], Unit := [87] }).count rb = 1 ∧
    (star ∈ dataSetMarshal { Address := [65], Value := [49], Unit := [87] } ↔
      ([87] : List Nat) ≠ []) := by
  have h := dataSet_boundaries { Address := [65], Value := [49], Unit := [87] }
    (by decide) (by decide) (by decide) (by decide) (by decide) (by decide) (by decide)
    (by decide) (by decide)
  exact ⟨h.1, h.2.1, h.2.2.2⟩

/-- Claim C1 counterexample: the DataSet with empty address, value 0x2a and
empty unit is not all empty, yet decoding its encoding yields the all-empty
DataSet, so the round-trip of the claim fails on it. -/
theorem dataSet_roundTrip_cex :
    dataSetMarshal { Address := [], Value := [star], Unit := [] } = [fb, star, rb] ∧
    dataSetUnmarshal (dataSetMarshal { Address := [], Value := [star], Unit := [] }) =
      .ok { Address := [], Value := [], Unit := [] } ∧
    ({ Address := [], Value := [], Unit := [] } : DataSet) ≠
      { Address := [], Value := [star], Unit := [] } := by
  refine ⟨by decide, by decide, by decide⟩

/-- Claim C7 counterexample: the DataSet whose address is the single byte
0x28 is not all empty, yet its encoding contains the byte 0x28 twice. -/
theorem dataSet_boundaries_cex :
    dataSetMarshal { Address := [fb], Value := [], Unit := [] } = [fb, fb, rb] ∧
    (dataSetMarshal { Address := [fb], Value := [], Unit := [] }).count fb = 2 := by
  refine ⟨by decide, by decide⟩

/-- Claim C4 counterexample: on the Mode-D identification bytes of an
immediate read-out (here manufacturer ekt, bri byte 0x33, device id), the
identity cached by the session has Mode D while decodeMode of its bri byte
is Mode C, so the session-held identity does not satisfy the claimed
function of the bri byte. -/
theorem immediateDreadOut_mode_cex :
    immediateDreadOutIdentity [101, 107, 116, 51, 105, 100, 13, 10] =
      .ok { Device := [105, 100], Manufacturer := [101, 107, 116], Mode := .D, bri := 51 } ∧
    decodeMode 51 = .C ∧ ProtocolMode.D ≠ ProtocolMode.C := by
  refine ⟨by decide, by decide, by decide⟩

/-- Claim C6 counterexample, refuting two clauses of the claim at concrete
responses.  First, a response frame consisting of the single byte 0x03 is
neither an acknowledgement, nor a break frame, nor a DataSet with a
non-empty value; the claim maps it to the invalid-password error, but
passExchange returns the front-boundary codec error of the failed DataSet
decode instead.  Second, the two-byte response 0x06 0x03 (an 0x02-framed
payload whose first byte happens to be 0x06) is not the single byte ACK,
yet passExchange accepts it and enters programming mode, because the
source tests only the first byte of the response. -/
theorem passExchange_cex :
    passExchange [fb, rb] (fun ds => (ds, CommandId.CmdP1)) (.ok [etx]) =
      .errCodec .frontBoundaryMissing ∧
    PassOutcome.errCodec .frontBoundaryMissing ≠ .errInvalidPassword ∧
    passExchange [fb, rb] (fun ds => (ds, CommandId.CmdP1)) (.ok [ack, etx]) =
      .accepted ∧
    ([ack, etx] : List Nat) ≠ [ack] := by
  refine ⟨by decide, by decide, by decide, by decide⟩

/-- Claim C4 (amended): every identity produced by Identity.UnmarshalBinary
has its Mode field equal to decodeMode of its bri byte, and decodeMode
follows the table (C for bytes 0x30..0x39, B for 0x41..0x49, else A); the
Mode-D immediate read-out, however, overwrites the Mode field to D after
parsing, so its cached identity carries Mode D regardless of the bri
byte. -/
theorem identity_mode_decodeMode :
    (∀ (data : List Nat) (id : Identity),
      identityUnmarshal data = .ok id → id.Mode = decodeMode id.bri) ∧
    (∀ (data : List Nat) (id : Identity),
      immediateDreadOutIdentity data = .ok id → id.Mode = .D) ∧
    (∀ b : Nat, decodeMode b =
      if 0x30 ≤ b ∧ b ≤ 0x39 then .C else if 0x41 ≤ b ∧ b ≤ 0x49 then .B else .A) := by
  refine ⟨?_, ?_, fun b => rfl⟩
  · intro data id h
    rw [identityUnmarshal] at h
    split at h
    · simp at h
    · split at h
      · simp at h
      · rw [IdParse.ok.injEq] at h
        rw [← h]
  · intro data id h
    rw [immediateDreadOutIdentity] at h
    split at h
    · rw [IdParse.ok.injEq] at h
      rw [← h]
    · simp_all

theorem identity_mode_decodeMode_wit :
    Identity.Mode { Device := [], Manufacturer := [65, 66, 67], Mode := .C, bri := 48 } =
      decodeMode (Identity.bri
        { Device := [], Manufacturer := [65, 66, 67], Mode := .C, bri := 48 }) :=
  identity_mode_decodeMode.1 [65, 66, 67, 48, 13, 10] _ (by decide)

/-- Claim C5: against a peer that answers every frame with NAK, the retry
wrapper performs exactly 5 writes and 5 reads and fails with ErrNAK and
does not touch lastActivity; a non-NAK read error on the first attempt
propagates at once after a single write and read; a successful first read
returns its data after a single write and read and updates
lastActivity. -/
theorem cmd_retry :
    cmdRun (fun _ => .resp (.err .errNAK)) =
      { writes := 5, reads := 5, result := .err .errNAK, updated := false } ∧
    (∀ (peer : Nat → Attempt) (e : PErr), e ≠ .errNAK →
      peer 0 = .resp (.err e) →
      cmdRun peer = { writes := 1, reads := 1, result := .err e, updated := false }) ∧
    (∀ (peer : Nat → Attempt) (d : List Nat), peer 0 = .resp (.ok d) →
      cmdRun peer = { writes := 1, reads := 1, result := .ok d, updated := true }) := by
  refine ⟨by decide, ?_, ?_⟩
  · intro peer e hne h
    cases e
    · exact absurd rfl hne
    · simp [cmdRun, cmdAux, h]
    · simp [cmdRun, cmdAux, h]
    · simp [cmdRun, cmdAux, h]
    · simp [cmdRun, cmdAux, h]
  · intro peer d h
    simp [cmdRun, cmdAux, h]

theorem cmd_retry_wit :
    cmdRun (fun _ => .resp (.err .errBCC)) =
      { writes := 1, reads := 1, result := .err .errBCC, updated := false } ∧
    cmdRun (fun _ => .resp (.ok [ack])) =
      { writes := 1, reads := 1, result := .ok [ack], updated := true } :=
  ⟨cmd_retry.2.1 _ _ (by decide) rfl, cmd_retry.2.2 _ _ rfl⟩

theorem passTail_ne_accepted (data : List Nat) : passTail data ≠ .accepted := by
  rw [passTail]
  split
  · split <;> simp
  · simp
  · simp

theorem passExchange_tail_eq (p : List Nat) (f : DataSet → DataSet × CommandId)
    (ds : DataSet) (hp : dataSetUnmarshal p = .ok ds)
    (d0 : Nat) (drest : List Nat) (h0 : d0 ≠ ack)
    (hb : d0 = 0x42 → ∃ d1 dr, drest = d1 :: dr ∧ d1 ≠ 0x30) :
    passExchange p f (.ok (d0 :: drest)) = passTail (d0 :: drest) := by
  by_cases h1 : d0 = 0x42
  · obtain ⟨d1, dr, rfl, hne⟩ := hb h1
    subst h1
    simp [passExchange, hp, hne, show (0x42 : Nat) ≠ ack from by decide]
  · simp [passExchange, hp, h0, h1]

/-- Claim C6 (amended): with a configured password callback and a payload
that decodes as a DataSet, passExchange enters programming mode exactly
when the first byte of the response is 0x06, also when the response is
longer than the single ACK byte; NAK exhaustion of the retry wrapper
gives the invalid-password error; a response whose first two bytes are
0x42 0x30 gives the device-sent-break error; every other non-empty
response not headed by 0x06 — including one headed by 0x42 with a second
byte other than 0x30 — is decoded as a DataSet, a decode failure
propagating that codec error rather than the invalid-password error, a
non-empty value failing with that value as error text, and an empty value
failing with the invalid-password error; an empty response, or the single
byte 0x42, makes the source index past the end of the response and
fault. -/
theorem passExchange_outcomes (p : List Nat) (f : DataSet → DataSet × CommandId)
    (ds : DataSet) (hp : dataSetUnmarshal p = .ok ds) :
    (∀ d, passExchange p f (.ok (ack :: d)) = .accepted) ∧
    (∀ data, passExchange p f (.ok data) = .accepted → data.head? = some ack) ∧
    (passExchange p f (.err .errNAK) = .errInvalidPassword) ∧
    (∀ d, passExchange p f (.ok (0x42 :: 0x30 :: d)) = .errBreak) ∧
    (∀ d0 drest r, d0 ≠ ack →
      (d0 = 0x42 → ∃ d1 dr, drest = d1 :: dr ∧ d1 ≠ 0x30) →
      dataSetUnmarshal (d0 :: drest) = .ok r → r.Value ≠ [] →
      passExchange p f (.ok (d0 :: drest)) = .errValue r.Value) ∧
    (∀ d0 drest r, d0 ≠ ack →
      (d0 = 0x42 → ∃ d1 dr, drest = d1 :: dr ∧ d1 ≠ 0x30) →
      dataSetUnmarshal (d0 :: drest) = .ok r → r.Value = [] →
      passExchange p f (.ok (d0 :: drest)) = .errInvalidPassword) ∧
    (∀ d0 drest e, d0 ≠ ack →
      (d0 = 0x42 → ∃ d1 dr, drest = d1 :: dr ∧ d1 ≠ 0x30) →
      dataSetUnmarshal (d0 :: drest) = .err e →
      passExchange p f (.ok (d0 :: drest)) = .errCodec e) ∧
    (passExchange p f (.ok []) = .fault ∧ passExchange p f (.ok [0x42]) = .fault) := by
  refine ⟨?_, ?_, ?_, ?_, ?_, ?_, ?_, ?_, ?_⟩
  · intro d
    simp [passExchange, hp]
  · intro data hacc
    match data with
    | [] => simp [passExchange, hp] at hacc
    | d0 :: drest =>
      by_cases h0 : d0 = ack
      · simp [h0]
      · exfalso
        simp only [passExchange, hp, h0, if_false] at hacc
        by_cases h1 : d0 = 0x42
        · rw [if_pos h1] at hacc
          match drest with
          | [] => simp at hacc
          | d1 :: dr =>
            by_cases h2 : d1 = 0x30
            · simp [h2] at hacc
            · have hpt : passTail (d0 :: d1 :: dr) = PassOutcome.accepted := by
                simpa [h2] using hacc
              exact passTail_ne_accepted _ hpt
        · rw [if_neg h1] at hacc
          exact passTail_ne_accepted _ hacc
  · simp [passExchange, hp]
  · intro d
    simp [passExchange, hp, show (0x42 : Nat) ≠ ack from by decide]
  · intro d0 drest r h0 hb hr hv
    rw [passExchange_tail_eq p f ds hp d0 drest h0 hb]
    simp [passTail, hr, hv]
  · intro d0 drest r h0 hb hr hv
    rw [passExchange_tail_eq p f ds hp d0 drest h0 hb]
    simp [passTail, hr, hv]
  · intro d0 drest e h0 hb he
    rw [passExchange_tail_eq p f ds hp d0 drest h0 hb]
    simp [passTail, he]
  · simp [passExchange, hp]
  · simp [passExchange, hp, show (0x42 : Nat) ≠ ack from by decide]

theorem passExchange_outcomes_wit :
    passExchange [fb, rb] (fun ds => (ds, CommandId.CmdP1)) (.ok [ack]) = .accepted ∧
    passExchange [fb, rb] (fun ds => (ds, CommandId.CmdP1)) (.err .errNAK) =
      .errInvalidPassword ∧
    passExchange [fb, rb] (fun ds => (ds, CommandId.CmdP1)) (.ok [0x42, 0x30, etx]) =
      .errBreak ∧
    passExchange [fb, rb] (fun ds => (ds, CommandId.CmdP1)) (.ok [fb, 65, rb]) =
      .errValue [65] ∧
    passExchange [fb, rb] (fun ds => (ds, CommandId.CmdP1)) (.ok [0x42, fb, 0x78, rb]) =
      .errValue [0x78] := by
  have h := passExchange_outcomes [fb, rb] (fun ds => (ds, CommandId.CmdP1))
    { Address := [], Value := [], Unit := [] } (by decide)
  refine ⟨h.1 [], h.2.2.1, h.2.2.2.1 [etx], ?_, ?_⟩
  · exact h.2.2.2.2.1 fb [65, rb] { Address := [], Value := [65], Unit := [] }
      (by decide) (fun hc => absurd hc (by decide)) (by decide) (by decide)
  · exact h.2.2.2.2.1 0x42 [fb, 0x78, rb] { Address := [0x42], Value := [0x78], Unit := [] }
      (by decide) (fun _ => ⟨fb, [0x78, rb], rfl, by decide⟩) (by decide) (by decide)

/-- Claim C3: readMessage classifies a response frame by its first byte:
0x15 yields ErrNAK; 0x06 yields the one-byte frame; 0x02 or 0x01 reads up
to and including 0x03 plus one BCC byte, delivering the payload and, on a
checksum mismatch, ErrBCC alongside it; 0x2f reads up to and including
0x0a; any other first byte yields ErrInvalidFrame. -/
theorem readMessage_frame_rule :
    (∀ rest, readMessage (some (nak :: rest)) = (some [nak], some PErr.errNAK)) ∧
    (∀ rest, readMessage (some (ack :: rest)) = (some [ack], none)) ∧
    (∀ h0 pre c tail, (h0 = stx ∨ h0 = soh) → etx ∉ pre →
      readMessage (some (h0 :: (pre ++ etx :: c :: tail))) =
        (some (pre ++ [etx]),
          if c = bcc (pre ++ [etx]) then none else some PErr.errBCC)) ∧
    (∀ pre tail, lf ∉ pre →
      readMessage (some (start :: (pre ++ lf :: tail))) = (some (pre ++ [lf]), none)) ∧
    (∀ b rest, b ≠ nak → b ≠ ack → b ≠ stx → b ≠ soh → b ≠ start →
      readMessage (some (b :: rest)) = (none, some PErr.errInvalidFrame)) := by
  refine ⟨?_, ?_, ?_, ?_, ?_⟩
  · intro rest
    simp [readMessage]
  · intro rest
    simp [readMessage, nak, ack]
  · intro h0 pre c tail hh hpre
    have hrb := readBytesIncl_append (c :: tail) hpre
    rcases hh with h | h <;> subst h <;>
      simp [readMessage, stx, soh, nak, ack, etx, start] at hrb ⊢ <;>
      rw [hrb] <;> by_cases hc : c = bcc (pre ++ [3]) <;> simp [hc]
  · intro pre tail hpre
    have hrb := readBytesIncl_append tail hpre
    simp [readMessage, start, nak, ack, stx, soh, lf] at hrb ⊢
    rw [hrb]
  · intro b rest h1 h2 h3 h4 h5
    simp [readMessage, h1, h2, h3, h4, h5]

theorem readMessage_frame_rule_wit :
    readMessage (some [nak]) = (some [nak], some PErr.errNAK) ∧
    readMessage (some [stx, 65, etx, 68]) = (some [65, etx], none) ∧
    readMessage (some [start, 65, lf]) = (some [65, lf], none) ∧
    readMessage (some [7]) = (none, some PErr.errInvalidFrame) := by
  refine ⟨readMessage_frame_rule.1 [], ?_, ?_, ?_⟩
  · have h := readMessage_frame_rule.2.2.1 stx [65] 68 [] (Or.inl rfl) (by decide)
    simpa [bcc] using h
  · have h := readMessage_frame_rule.2.2.2.1 [65] [] (by decide)
    simpa using h
  · exact readMessage_frame_rule.2.2.2.2 7 []
      (by decide) (by decide) (by decide) (by decide) (by decide)

end Iec62056
